import Mathlib

/-!
# Verification of the chunk-generation and streaming core of "the-actual-backrooms"

Shallow embedding of the TypeScript/JavaScript sources:

* `src/Chunk.ts`   — seeded PRNG (`seededRandom`), coordinate hash (`hashCoords`),
                     procedural chunk generation (`Chunk.generate`, `addLights`);
* `src/World.ts`   — chunk store and window manager (`World.update`, `loadChunk`,
                     `unloadChunk`, `forceUpdate`);
* `server/index.js` — position relay (`move` handler with its shared broadcast throttle).

Modelling conventions:

* JavaScript numbers are IEEE-754 binary64.  Wherever every intermediate value of a
  computation is an integer below 2^53 (the hash folds on 32-bit-range inputs, the
  store/window bookkeeping) arithmetic is exact and is embedded as exact `ℤ`/`ℚ`
  arithmetic.  The one place where intermediates exceed 2^53 — the product
  `seed * 1103515245` of the linear-congruential generator, which reaches ≈ 2^61 —
  is embedded with the exact round-to-nearest-even semantics of binary64 on integer
  values (`fl` below).
* `h & 0x7fffffff` applied by the source to a non-negative integral value keeps the
  low 31 bits, i.e. computes the residue mod 2^31; JavaScript `h << 5` is
  `ToInt32(h) * 32` wrapped to signed 32 bits.
* World positions, sizes and geometry fields are embedded as `ℚ`; `Math.sqrt` outputs
  and the third-party simplex-noise field enter the generator only as opaque
  deterministic functions, so they are abstracted as explicit function parameters
  (`GenEnv`), constrained in theorem statements where a concrete value is needed.
-/

namespace Backrooms

/-! ## Binary64 rounding of integer values

`fl n` is the binary64 (53-bit significand) round-to-nearest, ties-to-even value of
the integer `n`.  For `n < 2^53` the value is exact; otherwise `n` is rounded at the
unit-in-the-last-place `2^(⌊log₂ n⌋ - 52)`. -/

def fl (n : ℕ) : ℕ :=
  if n < 2 ^ 53 then n
  else if n % 2 ^ (Nat.log 2 n - 52) < 2 ^ (Nat.log 2 n - 53) then
    n / 2 ^ (Nat.log 2 n - 52) * 2 ^ (Nat.log 2 n - 52)
  else if 2 ^ (Nat.log 2 n - 53) < n % 2 ^ (Nat.log 2 n - 52) then
    (n / 2 ^ (Nat.log 2 n - 52) + 1) * 2 ^ (Nat.log 2 n - 52)
  else if n / 2 ^ (Nat.log 2 n - 52) % 2 = 0 then
    n / 2 ^ (Nat.log 2 n - 52) * 2 ^ (Nat.log 2 n - 52)
  else (n / 2 ^ (Nat.log 2 n - 52) + 1) * 2 ^ (Nat.log 2 n - 52)

/-! ## `seededRandom` (src/Chunk.ts lines 11-16)

```js
function seededRandom(seed) {
  return function() {
    seed = (seed * 1103515245 + 12345) & 0x7fffffff;
    return seed / 0x7fffffff;
  };
}
```
`seed * 1103515245 + 12345` is evaluated in binary64 (product rounded, then sum
rounded), and the `& 0x7fffffff` reduces the resulting non-negative integral value
mod 2^31. -/

def lcgA : ℕ := 1103515245
def lcgC : ℕ := 12345
def lcgM : ℕ := 2 ^ 31

/-- One call of the closure returned by `seededRandom`: the state update. -/
def seededRandomStep (s : ℕ) : ℕ :=
  fl (fl (s * lcgA) + lcgC) % lcgM

/-- The value returned by that call: `seed / 0x7fffffff` on the updated seed,
as an exact rational (`0x7fffffff = 2147483647`). -/
def seededRandomVal (s : ℕ) : ℚ :=
  (seededRandomStep s : ℚ) / 2147483647

/-- State after `n` calls, starting from construction seed `s`. -/
def seededRandomState (s : ℕ) : ℕ → ℕ
  | 0 => s
  | n + 1 => seededRandomStep (seededRandomState s n)

/-! ## `hashCoords` (src/Chunk.ts lines 19-24)

```js
function hashCoords(x, z, seed) {
  let h = seed;
  h = ((h << 5) - h) + x;
  h = ((h << 5) - h) + z;
  return h & 0x7fffffff;
}
```
All additions/subtractions stay far below 2^53 for 32-bit-range inputs, so they are
exact; `h << 5` wraps through signed 32-bit as `toInt32 (32 * h)`. -/

def toInt32 (n : ℤ) : ℤ := (n + 2 ^ 31) % 2 ^ 32 - 2 ^ 31

/-- JavaScript `h << 5` on an integral value. -/
def shl5 (h : ℤ) : ℤ := toInt32 (32 * h)

def hashCoords (x z seed : ℤ) : ℤ :=
  let h1 := shl5 seed - seed + x
  let h2 := shl5 h1 - h1 + z
  h2 % 2 ^ 31

/-! ## Facts about `fl` -/

theorem fl_of_lt {n : ℕ} (h : n < 2 ^ 53) : fl n = n := by
  unfold fl
  rw [if_pos h]

theorem log_ge_of_le {n : ℕ} (h : 2 ^ 53 ≤ n) : 53 ≤ Nat.log 2 n :=
  (Nat.pow_le_iff_le_log (by norm_num) (by positivity)).mp h

/-- Above `2^53` the rounded value is a multiple of the ulp, in particular even. -/
theorem two_dvd_fl {n : ℕ} (h : 2 ^ 53 ≤ n) : 2 ∣ fl n := by
  have hlog := log_ge_of_le h
  have h2 : 2 ∣ 2 ^ (Nat.log 2 n - 52) := dvd_pow_self 2 (by omega)
  unfold fl
  rw [if_neg (not_lt.mpr h)]
  split_ifs <;> exact Dvd.dvd.mul_left h2 _

/-- Rounding can not drop a value that is at least `2^53` below `2^53`. -/
theorem le_fl {n : ℕ} (h : 2 ^ 53 ≤ n) : 2 ^ 53 ≤ fl n := by
  have hlog := log_ge_of_le h
  have hpow : 2 ^ Nat.log 2 n ≤ n := Nat.pow_log_le_self 2 (by positivity)
  have hq : 2 ^ 52 ≤ n / 2 ^ (Nat.log 2 n - 52) := by
    rw [Nat.le_div_iff_mul_le (by positivity)]
    calc 2 ^ 52 * 2 ^ (Nat.log 2 n - 52) = 2 ^ Nat.log 2 n := by
          rw [← pow_add]; congr 1; omega
    _ ≤ n := hpow
  have hbase : 2 ^ 53 ≤ n / 2 ^ (Nat.log 2 n - 52) * 2 ^ (Nat.log 2 n - 52) := by
    calc (2 ^ 53 : ℕ) ≤ 2 ^ 52 * 2 ^ (Nat.log 2 n - 52) := by
          rw [← pow_add]
          exact Nat.pow_le_pow_right (by norm_num) (by omega)
    _ ≤ n / 2 ^ (Nat.log 2 n - 52) * 2 ^ (Nat.log 2 n - 52) := Nat.mul_le_mul_right _ hq
  unfold fl
  rw [if_neg (not_lt.mpr h)]
  split_ifs
  · exact hbase
  · exact le_trans hbase (Nat.mul_le_mul_right _ (Nat.le_succ _))
  · exact hbase
  · exact le_trans hbase (Nat.mul_le_mul_right _ (Nat.le_succ _))

/-- Closed-form evaluation of `fl` when the remainder rounds down. -/
theorem fl_eval_down {n e : ℕ} (h53 : 2 ^ 53 ≤ n) (hlo : 2 ^ e ≤ n) (hhi : n < 2 ^ (e + 1))
    (hr : n % 2 ^ (e - 52) < 2 ^ (e - 53)) :
    fl n = n / 2 ^ (e - 52) * 2 ^ (e - 52) := by
  have hlog : Nat.log 2 n = e := Nat.log_eq_of_pow_le_of_lt_pow hlo hhi
  unfold fl
  rw [if_neg (not_lt.mpr h53), hlog, if_pos hr]

/-! ## Facts about `seededRandomStep` -/

theorem seededRandomStep_def (s : ℕ) :
    seededRandomStep s = fl (fl (s * lcgA) + lcgC) % lcgM := rfl

theorem seededRandomStep_lt (s : ℕ) : seededRandomStep s < 2 ^ 31 := by
  rw [seededRandomStep_def]
  exact Nat.mod_lt _ (by norm_num [lcgM])

/-- Below `2^53` every intermediate is exact, and the JavaScript expression agrees
with the pure linear-congruential recurrence. -/
theorem seededRandomStep_exact {s : ℕ} (h : s * 1103515245 + 12345 < 2 ^ 53) :
    seededRandomStep s = (s * 1103515245 + 12345) % 2 ^ 31 := by
  have hA : s * lcgA = s * 1103515245 := rfl
  have h1 : s * lcgA < 2 ^ 53 := by rw [hA]; omega
  have h2 : s * lcgA + lcgC < 2 ^ 53 := by
    rw [hA, show lcgC = 12345 from rfl]; omega
  rw [seededRandomStep_def, fl_of_lt h1, fl_of_lt h2]
  rfl

/-- In the exact range, the state `2^31 - 1` (which would make the returned value
exactly 1) is never produced: the unique inverse-image of `2^31 - 1` under the
exact recurrence is `230538014`, whose product with the multiplier exceeds `2^53`. -/
theorem step_ne_case_exact (s : ℕ) (h : s * 1103515245 + 12345 < 9007199254740992)
    (heq : (s * 1103515245 + 12345) % 2147483648 = 2147483647) : False := by
  have hs : s ≤ 8162278 := by
    clear heq
    by_contra hc
    push_neg at hc
    have : 8162279 * 1103515245 ≤ s * 1103515245 := Nat.mul_le_mul_right _ hc
    omega
  have hdvd : (2147483648 : ℕ) ∣ s * 1103515245 + 12346 := by
    clear h hs
    set a := s * 1103515245 with ha
    clear_value a
    clear ha
    omega
  have hsplit : 1857678181 * (s * 1103515245 + 12346) =
      2147483648 * (954594553 * s) + (s + 22934894822626) := by ring
  have h1 : (2147483648 : ℕ) ∣ 1857678181 * (s * 1103515245 + 12346) :=
    Dvd.dvd.mul_left hdvd _
  have h2 : (2147483648 : ℕ) ∣ s + 22934894822626 := by
    rw [hsplit] at h1
    exact (Nat.dvd_add_right (dvd_mul_right _ _)).mp h1
  obtain ⟨m, hm⟩ := h2
  clear h heq hdvd hsplit h1
  omega

/-- `seededRandomStep` never produces the state `2^31 - 1`: in the exact range by
`step_ne_case_exact`, and beyond it the rounded result is even while `2^31 - 1` is odd. -/
theorem seededRandomStep_ne (s : ℕ) : seededRandomStep s ≠ 2 ^ 31 - 1 := by
  by_cases h : s * 1103515245 + 12345 < 2 ^ 53
  · rw [seededRandomStep_exact h]
    intro heq
    rw [show (2 : ℕ) ^ 31 = 2147483648 from by norm_num] at heq
    rw [show (2 : ℕ) ^ 53 = 9007199254740992 from by norm_num] at h
    norm_num at heq
    exact step_ne_case_exact s h heq
  · push_neg at h
    have hA : s * lcgA + lcgC = s * 1103515245 + 12345 := rfl
    have hsum : 2 ^ 53 ≤ fl (s * lcgA) + lcgC := by
      rcases lt_or_le (s * lcgA) (2 ^ 53) with hp | hp
      · rw [fl_of_lt hp]
        omega
      · have := le_fl hp
        have hC : (0 : ℕ) ≤ lcgC := Nat.zero_le _
        omega
    have h2 : 2 ∣ fl (fl (s * lcgA) + lcgC) := two_dvd_fl hsum
    have h3 : 2 ∣ seededRandomStep s := by
      rw [seededRandomStep_def]
      exact (Nat.dvd_mod_iff (by norm_num [lcgM])).mpr h2
    intro heq
    rw [heq] at h3
    norm_num at h3

theorem seededRandomVal_nonneg (s : ℕ) : 0 ≤ seededRandomVal s := by
  unfold seededRandomVal
  positivity

theorem seededRandomVal_lt_one (s : ℕ) : seededRandomVal s < 1 := by
  have h1 := seededRandomStep_lt s
  have h2 := seededRandomStep_ne s
  rw [seededRandomVal, div_lt_one (by norm_num)]
  have h3 : seededRandomStep s < 2147483647 := by
    rw [show (2 : ℕ) ^ 31 = 2147483648 from by norm_num] at h1
    rw [show (2 : ℕ) ^ 31 - 1 = 2147483647 from by norm_num] at h2
    omega
  exact_mod_cast h3

/-! ## Facts about `hashCoords` -/

/-- Closed form: the two multiply-shift-subtract folds amount to
`31 * (31 * seed + x) + z = 961 * seed + 31 * x + z` modulo `2^32`, and the final
31-bit mask collapses the `2^32` wrap into the residue mod `2^31`. -/
theorem hashCoords_eq (x z seed : ℤ) :
    hashCoords x z seed = (961 * seed + 31 * x + z) % 2 ^ 31 := by
  simp only [hashCoords, shl5, toInt32]
  omega

theorem hashCoords_nonneg (x z seed : ℤ) : 0 ≤ hashCoords x z seed := by
  rw [hashCoords_eq]
  exact Int.emod_nonneg _ (by norm_num)

theorem hashCoords_lt (x z seed : ℤ) : hashCoords x z seed < 2 ^ 31 := by
  rw [hashCoords_eq]
  exact Int.emod_lt_of_pos _ (by norm_num)

/-! ## Data model (src/types.ts) -/

structure ChunkCoord where
  x : ℤ
  z : ℤ
deriving DecidableEq

structure WorldConfig where
  chunkSize : ℚ
  viewDistance : ℤ
  wallHeight : ℚ
  corridorWidth : ℚ
  seed : ℤ
deriving DecidableEq

def DEFAULT_CONFIG : WorldConfig :=
  { chunkSize := 32, viewDistance := 3, wallHeight := 3, corridorWidth := 3, seed := 42 }

/-- One structural geometry element of a chunk, with its numeric fields
(positions are taken relative to the chunk group origin, as in the source;
a wall's 0°/90° rotation is the Boolean `rot90`). -/
inductive Elem where
  | floorPanel (px py pz : ℚ) (size : ℚ)
  | ceilingPanel (px py pz : ℚ) (size : ℚ)
  | wall (px py pz : ℚ) (length height : ℚ) (rot90 : Bool)
  | pillar (px py pz : ℚ) (height : ℚ)
  | lightFixture (px py pz : ℚ) (intensity : ℚ)
  | pointLight (px py pz : ℚ)
deriving DecidableEq

/-! ## Chunk generation (src/Chunk.ts, `Chunk.generate` lines 188-273, `addLights` 275-302)

The third-party `createNoise2D` (simplex-noise) and `Math.sqrt` are outside the
repository; they are deterministic functions, abstracted as the explicit
environment `GenEnv`.  `mkNoise` consumes the per-chunk PRNG state during
construction (the library shuffles its permutation table through the supplied
`random` closure) and yields the pure noise field plus the PRNG state left for the
subsequent draws. -/

structure GenEnv where
  mkNoise : ℕ → (ℚ → ℚ → ℚ) × ℕ
  sqrtQ : ℚ → ℚ

/-- One `random()` call: returned value and updated closure state. -/
def draw (s : ℕ) : ℚ × ℕ := (seededRandomVal s, seededRandomStep s)

/-- Lines 230-232, evaluated inside the 4×4 cell sweep: `depth` and the
depth-scaled wall threshold.  `dist` is the value of
`Math.sqrt(worldX*worldX + worldZ*worldZ)` for the chunk's world-space corner;
the cell indices `gx`, `gz` do not occur in the source expression. -/
def cellWallThreshold (dist : ℚ) (gx gz : ℕ) : ℚ :=
  1 / 10 - min (dist / 100 * (2 / 100)) (15 / 100)

/-- Lines 225-228: the three-octave layout signal sampled at a cell's world
position. -/
def layoutSignal (noise : ℚ → ℚ → ℚ) (cwx cwz : ℚ) : ℚ :=
  noise (cwx * (5 / 100)) (cwz * (5 / 100)) * (5 / 10) +
  noise (cwx * (1 / 10)) (cwz * (1 / 10)) * (3 / 10) +
  noise (cwx * (2 / 10)) (cwz * (2 / 10)) * (2 / 10)

/-- Line 220: `cellWorldX = worldX + gx * cellSize` (and symmetrically for z). -/
def cellWorldX (cx : ℤ) (chunkSize : ℚ) (gx : ℕ) : ℚ :=
  cx * chunkSize + gx * (chunkSize / 4)

def cellWorldZ (cz : ℤ) (chunkSize : ℚ) (gz : ℕ) : ℚ :=
  cz * chunkSize + gz * (chunkSize / 4)

/-- The radicand `worldX*worldX + worldZ*worldZ` of line 231. -/
def chunkCornerDistSq (cx cz : ℤ) (chunkSize : ℚ) : ℚ :=
  (cx * chunkSize) * (cx * chunkSize) + (cz * chunkSize) * (cz * chunkSize)

/-- Lines 218-268: the body of the cell sweep for one `(gx, gz)` cell, threading
the element list and PRNG state.  Draw order as in the source: wall length, wall
rotation (only when a wall is emitted), pillar chance, pillar x, pillar z. -/
def cellStep (cfg : WorldConfig) (noise : ℚ → ℚ → ℚ) (dist worldX worldZ : ℚ)
    (acc : List Elem × ℕ) (c : ℕ × ℕ) : List Elem × ℕ :=
  let gx := c.1
  let gz := c.2
  let cellSize := cfg.chunkSize / 4
  let noiseVal := layoutSignal noise (worldX + gx * cellSize) (worldZ + gz * cellSize)
  let afterWall :=
    if noiseVal > cellWallThreshold dist gx gz then
      let r1 := draw acc.2
      let r2 := draw r1.2
      (acc.1 ++ [Elem.wall (gx * cellSize + cellSize / 2) (cfg.wallHeight / 2)
          (gz * cellSize + cellSize / 2) (cellSize * (1 / 2 + r1.1 * (1 / 2)))
          cfg.wallHeight (decide ((1 : ℚ) / 2 < r2.1))], r2.2)
    else acc
  let r3 := draw afterWall.2
  if r3.1 > 92 / 100 then
    let r4 := draw r3.2
    let r5 := draw r4.2
    (afterWall.1 ++ [Elem.pillar (gx * cellSize + r4.1 * cellSize) (cfg.wallHeight / 2)
        (gz * cellSize + r5.1 * cellSize) cfg.wallHeight], r5.2)
  else (afterWall.1, r3.2)

/-- Row-major cell sweep order: `gx` outer, `gz` inner, each over `0..3`. -/
def cellIndices : List (ℕ × ℕ) :=
  (List.range 4).flatMap fun gx => (List.range 4).map fun gz => (gx, gz)

/-- Number of iterations of `for (v = 4; v < chunkSize; v += 8)`. -/
def lightCount (cs : ℚ) : ℕ := (⌈(cs - 4) / 8⌉).toNat

def lightIndices (cs : ℚ) : List (ℕ × ℕ) :=
  (List.range (lightCount cs)).flatMap fun i =>
    (List.range (lightCount cs)).map fun j => (i, j)

/-- Lines 279-300: body of the light sweep for lattice point `(i, j)`, i.e.
local position `(4 + 8i, 4 + 8j)`.  Draw order: skip chance, then intensity. -/
def lightStep (cfg : WorldConfig) (acc : List Elem × ℕ) (c : ℕ × ℕ) : List Elem × ℕ :=
  let x : ℚ := 4 + 8 * c.1
  let z : ℚ := 4 + 8 * c.2
  let r1 := draw acc.2
  if r1.1 > 85 / 100 then (acc.1, r1.2)
  else
    let r2 := draw r1.2
    (acc.1 ++ [Elem.lightFixture x (cfg.wallHeight - 5 / 100) z
        (if r2.1 > 9 / 10 then 3 / 10 else 1),
      Elem.pointLight x (cfg.wallHeight - 2 / 10) z], r2.2)

/-- `Chunk.generate`: floor and ceiling panels, the 4×4 cell sweep, then the light
sweep, all driven by the PRNG seeded from `hashCoords(coord.x, coord.z, seed)`. -/
def generateGeom (env : GenEnv) (coord : ChunkCoord) (cfg : WorldConfig) : List Elem :=
  let chunkSeed := (hashCoords coord.x coord.z cfg.seed).toNat
  let np := env.mkNoise chunkSeed
  let worldX := (coord.x : ℚ) * cfg.chunkSize
  let worldZ := (coord.z : ℚ) * cfg.chunkSize
  let dist := env.sqrtQ (worldX * worldX + worldZ * worldZ)
  let base := [Elem.floorPanel (cfg.chunkSize / 2) 0 (cfg.chunkSize / 2) cfg.chunkSize,
    Elem.ceilingPanel (cfg.chunkSize / 2) cfg.wallHeight (cfg.chunkSize / 2) cfg.chunkSize]
  let afterCells := cellIndices.foldl (cellStep cfg np.1 dist worldX worldZ) (base, np.2)
  ((lightIndices cfg.chunkSize).foldl (lightStep cfg) afterCells).1

/-- `new Chunk(coord, config)`: lazily initializes the class-level shared material
cache (the only mutable state shared between invocations, modelled by the Boolean
`materialsReady`) and generates the chunk.  The geometry is a function of
`(coord, config)` alone; the constructor leaves the cache initialized. -/
def chunkNew (env : GenEnv) (coord : ChunkCoord) (cfg : WorldConfig)
    (materialsReady : Bool) : List Elem × Bool :=
  (generateGeom env coord cfg, true)

/-! ## World / chunk store (src/World.ts) -/

/-- Association-list model of a JavaScript `Map` (insertion order, unique keys as
used by the source; `alookup` returns the first binding). -/
def alookup {K V : Type} [DecidableEq K] : List (K × V) → K → Option V
  | [], _ => none
  | kv :: rest, k => if kv.1 = k then some kv.2 else alookup rest k

structure WorldState where
  chunks : List ((ℤ × ℤ) × List Elem)
  lastPlayerChunk : ℤ × ℤ

/-- Constructor state (line 13-14): empty store, `lastPlayerChunk = {x: 0, z: 0}`. -/
def worldInit : WorldState := { chunks := [], lastPlayerChunk := (0, 0) }

/-- Lines 33-38: componentwise `Math.floor(worldPos / chunkSize)` (only x and z
are consulted). -/
def worldToChunk (cfg : WorldConfig) (px pz : ℚ) : ℤ × ℤ :=
  (⌊px / cfg.chunkSize⌋, ⌊pz / cfg.chunkSize⌋)

inductive WEvent where
  | load (c : ℤ × ℤ)
  | unload (c : ℤ × ℤ)
deriving DecidableEq

/-- Lines 55-61: the needed window, `dx` outer and `dz` inner, each from
`-viewDistance` to `viewDistance`. -/
def windowCoords (c : ℤ × ℤ) (vd : ℤ) : List (ℤ × ℤ) :=
  (List.range (2 * vd + 1).toNat).flatMap fun i =>
    (List.range (2 * vd + 1).toNat).map fun j => (c.1 - vd + i, c.2 - vd + j)

/-- Lines 63-67 body: load the coordinate if absent (`loadChunk`, lines 78-82:
generate and insert). -/
def loadPass (env : GenEnv) (cfg : WorldConfig)
    (acc : List ((ℤ × ℤ) × List Elem) × List WEvent) (c : ℤ × ℤ) :
    List ((ℤ × ℤ) × List Elem) × List WEvent :=
  if (alookup acc.1 c).isSome then acc
  else (acc.1 ++ [(c, generateGeom env ⟨c.1, c.2⟩ cfg)], acc.2 ++ [WEvent.load c])

/-- Lines 84-88 (`unloadChunk`): the store-state effect of `chunks.delete(key)`. -/
def unloadChunk (m : List ((ℤ × ℤ) × List Elem)) (c : ℤ × ℤ) :
    List ((ℤ × ℤ) × List Elem) :=
  m.filter fun kv => decide (kv.1 ≠ c)

/-- Lines 40-76 (`World.update`): early return while the player stays in the same
chunk; otherwise load every missing window coordinate, then unload every resident
coordinate outside the window.  Also returns the load/unload calls issued. -/
def update (env : GenEnv) (cfg : WorldConfig) (st : WorldState) (px pz : ℚ) :
    WorldState × List WEvent :=
  let currentChunk := worldToChunk cfg px pz
  if currentChunk = st.lastPlayerChunk then (st, [])
  else
    let needed := windowCoords currentChunk cfg.viewDistance
    let loaded := needed.foldl (loadPass env cfg) (st.chunks, [])
    let staleKeys := (loaded.1.filter fun kv => decide (kv.1 ∉ needed)).map Prod.fst
    ({ chunks := staleKeys.foldl unloadChunk loaded.1, lastPlayerChunk := currentChunk },
      loaded.2 ++ staleKeys.map WEvent.unload)

/-! ## Position relay server (server/index.js) -/

structure PlayerState where
  px : ℚ
  py : ℚ
  pz : ℚ
  rotation : ℚ
deriving DecidableEq

structure ServerState where
  players : List (String × PlayerState)
  lastBroadcast : ℤ

def BROADCAST_INTERVAL : ℤ := 50

/-- Lines 54-67, the `move` handler: update the stored state for the connection
unconditionally; broadcast `player_moved` (and stamp the shared `lastBroadcast`)
only when more than `BROADCAST_INTERVAL` ms have passed since the last broadcast.
Returns the new state and whether a broadcast was emitted. -/
def handleMove (st : ServerState) (sid : String) (data : PlayerState) (now : ℤ) :
    ServerState × Bool :=
  match alookup st.players sid with
  | none => (st, false)
  | some _ =>
    let players' := st.players.map fun kv => if kv.1 = sid then (kv.1, data) else kv
    if now - st.lastBroadcast > BROADCAST_INTERVAL then
      ({ players := players', lastBroadcast := now }, true)
    else
      ({ players := players', lastBroadcast := st.lastBroadcast }, false)

/-- A sequence of `move` receipts `(socket id, payload, Date.now())`, returning the
final state and the timestamps at which `player_moved` broadcasts were emitted. -/
def runMoves (st : ServerState) : List (String × PlayerState × ℤ) → ServerState × List ℤ
  | [] => (st, [])
  | e :: rest =>
    let r := handleMove st e.1 e.2.1 e.2.2
    let rest' := runMoves r.1 rest
    (rest'.1, (if r.2 then [e.2.2] else []) ++ rest'.2)

/-! ## Association-list lemmas -/

section AlistLemmas

variable {K V : Type} [DecidableEq K]

theorem alookup_append_of_isSome {m l : List (K × V)} {c : K} {w : V}
    (h : alookup m c = some w) : alookup (m ++ l) c = some w := by
  induction m with
  | nil => simp [alookup] at h
  | cons kv rest ih =>
    rw [List.cons_append, alookup]
    rw [alookup] at h
    split_ifs at h ⊢ with hk
    · exact h
    · exact ih h

theorem alookup_append_of_none {m l : List (K × V)} {c : K}
    (h : alookup m c = none) : alookup (m ++ l) c = alookup l c := by
  induction m with
  | nil => rfl
  | cons kv rest ih =>
    rw [List.cons_append, alookup]
    rw [alookup] at h
    split_ifs at h ⊢ with hk
    · exact ih h

theorem alookup_isSome_iff {m : List (K × V)} {c : K} :
    (alookup m c).isSome = true ↔ ∃ kv ∈ m, kv.1 = c := by
  induction m with
  | nil => simp [alookup]
  | cons kv rest ih =>
    rw [alookup]
    split_ifs with hk
    · simp [hk]
    · simp only [List.mem_cons, ih]
      constructor
      · rintro ⟨kv', h1, h2⟩
        exact ⟨kv', Or.inr h1, h2⟩
      · rintro ⟨kv', h1 | h1, h2⟩
        · exact absurd (h1 ▸ h2) hk
        · exact ⟨kv', h1, h2⟩

theorem alookup_singleton {a c : K} {v : V} :
    alookup [(a, v)] c = if a = c then some v else none := by
  rw [alookup]
  split_ifs <;> rfl

end AlistLemmas

/-! ## Lemmas about the load pass -/

section LoadLemmas

variable (env : GenEnv) (cfg : WorldConfig)

theorem loadPass_preserves {L : List (ℤ × ℤ)}
    {m : List ((ℤ × ℤ) × List Elem)} {evs : List WEvent} {c : ℤ × ℤ} {w : List Elem}
    (h : alookup m c = some w) (hev : WEvent.load c ∉ evs) :
    alookup (L.foldl (loadPass env cfg) (m, evs)).1 c = some w ∧
      WEvent.load c ∉ (L.foldl (loadPass env cfg) (m, evs)).2 := by
  induction L generalizing m evs with
  | nil => exact ⟨h, hev⟩
  | cons a L ih =>
    rw [List.foldl_cons]
    by_cases hp : (alookup m a).isSome
    · rw [show loadPass env cfg (m, evs) a = (m, evs) from by rw [loadPass, if_pos hp]]
      exact ih h hev
    · have hac : a ≠ c := by
        intro hteq
        rw [hteq, h] at hp
        simp at hp
      rw [show loadPass env cfg (m, evs) a =
          (m ++ [(a, generateGeom env ⟨a.1, a.2⟩ cfg)], evs ++ [WEvent.load a]) from by
        rw [loadPass, if_neg hp]]
      refine ih (alookup_append_of_isSome h) ?_
      simp only [List.mem_append, List.mem_singleton]
      rintro (hmem | hmem)
      · exact hev hmem
      · exact hac (by injection hmem with h'; exact h'.symm)

theorem loadPass_isSome {L : List (ℤ × ℤ)}
    {acc : List ((ℤ × ℤ) × List Elem) × List WEvent} {c : ℤ × ℤ} :
    (alookup (L.foldl (loadPass env cfg) acc).1 c).isSome = true ↔
      (alookup acc.1 c).isSome = true ∨ c ∈ L := by
  induction L generalizing acc with
  | nil => simp
  | cons a L ih =>
    rw [List.foldl_cons, List.mem_cons]
    by_cases hp : (alookup acc.1 a).isSome
    · rw [show loadPass env cfg acc a = acc from by rw [loadPass, if_pos hp]]
      rw [ih]
      constructor
      · rintro (h1 | h1)
        · exact Or.inl h1
        · exact Or.inr (Or.inr h1)
      · rintro (h1 | h1 | h1)
        · exact Or.inl h1
        · exact Or.inl (h1 ▸ hp)
        · exact Or.inr h1
    · rw [show loadPass env cfg acc a =
          (acc.1 ++ [(a, generateGeom env ⟨a.1, a.2⟩ cfg)], acc.2 ++ [WEvent.load a]) from by
        rw [loadPass, if_neg hp]]
      rw [ih]
      rcases hs : alookup acc.1 c with _ | w
      · rw [alookup_append_of_none hs, alookup_singleton]
        constructor
        · rintro (h1 | h1)
          · split_ifs at h1 with hac
            · exact Or.inr (Or.inl hac.symm)
            · simp at h1
          · exact Or.inr (Or.inr h1)
        · rintro (h1 | h1 | h1)
          · simp at h1
          · exact Or.inl (by rw [if_pos h1.symm]; rfl)
          · exact Or.inr h1
      · rw [alookup_append_of_isSome hs]
        simp [hs]

end LoadLemmas

/-! ## Lemmas about unloading -/

theorem alookup_unloadChunk (m : List ((ℤ × ℤ) × List Elem)) (a c : ℤ × ℤ) :
    alookup (unloadChunk m a) c = if c = a then none else alookup m c := by
  induction m with
  | nil => simp [unloadChunk, alookup]
  | cons kv rest ih =>
    rw [unloadChunk, List.filter]
    rcases hd : decide (kv.1 ≠ a) with _ | _
    · simp only [decide_eq_false_iff_not, not_not] at hd
      rw [show List.filter (fun kv => decide (kv.1 ≠ a)) rest = unloadChunk rest a from rfl]
      rw [ih, alookup]
      split_ifs with h1 h2
      · rfl
      · exact absurd (h2 ▸ hd) h1
      · rfl
    · simp only [decide_eq_true_eq] at hd
      rw [show List.filter (fun kv => decide (kv.1 ≠ a)) rest = unloadChunk rest a from rfl]
      rw [alookup, alookup, ih]
      split_ifs with h1 h2 <;> try rfl
      exact absurd (h1 ▸ h2) hd

theorem alookup_foldl_unload (ks : List (ℤ × ℤ)) (m : List ((ℤ × ℤ) × List Elem))
    (c : ℤ × ℤ) :
    alookup (ks.foldl unloadChunk m) c = if c ∈ ks then none else alookup m c := by
  induction ks generalizing m with
  | nil => simp
  | cons a ks ih =>
    rw [List.foldl_cons, ih, alookup_unloadChunk]
    by_cases h1 : c ∈ ks
    · rw [if_pos h1, if_pos (List.mem_cons.mpr (Or.inr h1))]
    · rw [if_neg h1]
      by_cases h2 : c = a
      · rw [if_pos h2, if_pos (List.mem_cons.mpr (Or.inl h2))]
      · rw [if_neg h2, if_neg (by simp [h2, h1])]

theorem mem_staleKeys_iff {m : List ((ℤ × ℤ) × List Elem)} {needed : List (ℤ × ℤ)}
    {c : ℤ × ℤ} :
    c ∈ (m.filter fun kv => decide (kv.1 ∉ needed)).map Prod.fst ↔
      (∃ kv ∈ m, kv.1 = c) ∧ c ∉ needed := by
  simp only [List.mem_map, List.mem_filter, decide_eq_true_eq]
  constructor
  · rintro ⟨kv, ⟨hmem, hnin⟩, heq⟩
    exact ⟨⟨kv, hmem, heq⟩, heq ▸ hnin⟩
  · rintro ⟨⟨kv, hmem, heq⟩, hnin⟩
    exact ⟨kv, ⟨hmem, heq ▸ hnin⟩, heq⟩

/-- `unloadChunk` of an absent coordinate leaves the store untouched. -/
theorem unloadChunk_of_absent {m : List ((ℤ × ℤ) × List Elem)} {c : ℤ × ℤ}
    (h : alookup m c = none) : unloadChunk m c = m := by
  induction m with
  | nil => rfl
  | cons kv rest ih =>
    rw [alookup] at h
    split_ifs at h with hk
    rw [unloadChunk, List.filter_cons, if_pos (by simpa using hk)]
    rw [show List.filter (fun kv => decide (kv.1 ≠ c)) rest = unloadChunk rest c from rfl,
      ih h]

theorem unloadChunk_idem (m : List ((ℤ × ℤ) × List Elem)) (c : ℤ × ℤ) :
    unloadChunk (unloadChunk m c) c = unloadChunk m c :=
  unloadChunk_of_absent (by rw [alookup_unloadChunk, if_pos rfl])

/-! ## Lemmas about the relay server -/

theorem alookup_map_update {m : List (String × PlayerState)} {sid : String}
    {data p : PlayerState} (h : alookup m sid = some p) :
    alookup (m.map fun kv => if kv.1 = sid then (kv.1, data) else kv) sid = some data := by
  induction m with
  | nil => simp [alookup] at h
  | cons kv rest ih =>
    rw [alookup] at h
    rw [List.map_cons]
    split_ifs at h with hk
    · rw [show (if kv.1 = sid then (kv.1, data) else kv) = (kv.1, data) from by
        rw [if_pos hk]]
      rw [alookup, if_pos hk]
    · rw [show (if kv.1 = sid then (kv.1, data) else kv) = kv from by rw [if_neg hk]]
      rw [alookup, if_neg hk]
      exact ih h

/-- Successive `player_moved` broadcast timestamps are separated by more than the
shared throttle interval, starting from the current `lastBroadcast` stamp. -/
theorem runMoves_chain (st : ServerState) (moves : List (String × PlayerState × ℤ)) :
    List.Chain (fun a b => a + BROADCAST_INTERVAL < b) st.lastBroadcast
      (runMoves st moves).2 := by
  induction moves generalizing st with
  | nil => exact List.Chain.nil
  | cons e rest ih =>
    simp only [runMoves]
    rcases hmatch : alookup st.players e.1 with _ | p
    · rw [show handleMove st e.1 e.2.1 e.2.2 = (st, false) from by
        rw [handleMove, hmatch]]
      simpa using ih st
    · by_cases ht : e.2.2 - st.lastBroadcast > BROADCAST_INTERVAL
      · rw [show handleMove st e.1 e.2.1 e.2.2 =
            ({ players := st.players.map fun kv => if kv.1 = e.1 then (kv.1, e.2.1) else kv,
               lastBroadcast := e.2.2 }, true) from by
          simp only [handleMove, hmatch]
          rw [if_pos ht]]
        simp only [if_true, List.singleton_append, List.chain_cons]
        refine ⟨by simp only [BROADCAST_INTERVAL] at ht ⊢; omega, ?_⟩
        exact ih { players := st.players.map fun kv => if kv.1 = e.1 then (kv.1, e.2.1) else kv,
                   lastBroadcast := e.2.2 }
      · rw [show handleMove st e.1 e.2.1 e.2.2 =
            ({ players := st.players.map fun kv => if kv.1 = e.1 then (kv.1, e.2.1) else kv,
               lastBroadcast := st.lastBroadcast }, false) from by
          simp only [handleMove, hmatch]
          rw [if_neg ht]]
        simpa using
          ih { players := st.players.map fun kv => if kv.1 = e.1 then (kv.1, e.2.1) else kv,
               lastBroadcast := st.lastBroadcast }

/-! ## Auxiliary definitions for concrete statements -/

/-- A concrete generation environment used only to form closed statements; the
paths exercised by those statements never consult it. -/
def trivEnv : GenEnv := { mkNoise := fun s => (fun _ _ => 0, s), sqrtQ := fun _ => 0 }

def isWall : Elem → Bool
  | Elem.wall _ _ _ _ _ _ => true
  | _ => false

def wallCount (es : List Elem) : ℕ := es.countP isWall

/-- The cell step emits exactly one wall when (and only when) the layout signal
exceeds the threshold, and never a wall through the pillar branch. -/
theorem cellStep_wallCount (cfg : WorldConfig) (noise : ℚ → ℚ → ℚ)
    (dist wx wz : ℚ) (acc : List Elem × ℕ) (gx gz : ℕ) :
    wallCount (cellStep cfg noise dist wx wz acc (gx, gz)).1 =
      wallCount acc.1 +
        (if layoutSignal noise (wx + gx * (cfg.chunkSize / 4))
            (wz + gz * (cfg.chunkSize / 4)) > cellWallThreshold dist gx gz
          then 1 else 0) := by
  simp only [cellStep]
  split_ifs with h1 h2 h3 <;>
    simp [wallCount, List.countP_append, List.countP_cons, isWall]

/-! ## Claim theorems -/

/-- **C1.** Chunk generation is a pure function of the chunk coordinate and the
world configuration: the geometry element sequence (count, order, and every
numeric field) is independent of the shared mutable material-cache state, both
across two invocations started from arbitrary cache states and across two
sequential invocations where the first mutates the cache for the second. -/
theorem c1_generate_deterministic (env : GenEnv) (coord : ChunkCoord)
    (cfg : WorldConfig) (mats mats' : Bool) :
    (chunkNew env coord cfg mats).1 = (chunkNew env coord cfg mats').1 ∧
      (chunkNew env coord cfg (chunkNew env coord cfg mats).2).1 =
        (chunkNew env coord cfg mats).1 :=
  ⟨rfl, rfl⟩

/-- **C2 (amended).** After any `update` whose derived chunk coordinate differs
from the previously recorded one, the store's resident key set equals exactly the
square window of side `2·viewDistance+1` centered on the derived coordinate, and
the recorded coordinate is updated.  (The original claim extended this to the
very first update of a fresh `World`, which fails: see `c2_counterexample`.) -/
theorem c2_window_completeness (env : GenEnv) (cfg : WorldConfig) (st : WorldState)
    (px pz : ℚ) (h : worldToChunk cfg px pz ≠ st.lastPlayerChunk) :
    (∀ c : ℤ × ℤ, (alookup (update env cfg st px pz).1.chunks c).isSome = true ↔
        c ∈ windowCoords (worldToChunk cfg px pz) cfg.viewDistance) ∧
      (update env cfg st px pz).1.lastPlayerChunk = worldToChunk cfg px pz := by
  constructor
  · intro c
    simp only [update]
    rw [if_neg h]
    rw [alookup_foldl_unload]
    by_cases hc : c ∈ windowCoords (worldToChunk cfg px pz) cfg.viewDistance
    · rw [if_neg fun hmem => (mem_staleKeys_iff.mp hmem).2 hc]
      rw [loadPass_isSome]
      simp [hc]
    · rcases hres : (alookup ((windowCoords (worldToChunk cfg px pz)
          cfg.viewDistance).foldl (loadPass env cfg) (st.chunks, [])).1 c).isSome with _ | _
      · rw [if_neg fun hmem =>
          by rw [alookup_isSome_iff.mpr (mem_staleKeys_iff.mp hmem).1] at hres; simp at hres]
        simp [hres, hc]
      · rw [if_pos (mem_staleKeys_iff.mpr ⟨alookup_isSome_iff.mp hres, hc⟩)]
        simp [hc]
  · simp only [update]
    rw [if_neg h]

/-- **C2 (counterexample).** A fresh `World` records `lastPlayerChunk = (0,0)`
already at construction, so its very first `update` with the observer inside
chunk `(0,0)` returns early: no chunk is loaded although the window around
`(0,0)` is nonempty — the claim's "including the very first update of a fresh
World with no prior forceUpdate" is false. -/
theorem c2_counterexample :
    (update trivEnv DEFAULT_CONFIG worldInit 0 0).1.chunks = [] ∧
      (update trivEnv DEFAULT_CONFIG worldInit 0 0).2 = [] ∧
      (0, 0) ∈ windowCoords (worldToChunk DEFAULT_CONFIG 0 0)
        DEFAULT_CONFIG.viewDistance := by
  have h : worldToChunk DEFAULT_CONFIG 0 0 = worldInit.lastPlayerChunk := by
    simp only [worldToChunk, DEFAULT_CONFIG, worldInit, Prod.mk.injEq]
    norm_num
  refine ⟨?_, ?_, ?_⟩
  · simp only [update]
    rw [if_pos h]
    rfl
  · simp only [update]
    rw [if_pos h]
  · rw [h.trans (rfl : worldInit.lastPlayerChunk = ((0 : ℤ), (0 : ℤ)))]
    decide

/-- Witness for `c2_window_completeness` at a concrete instance. -/
theorem c2_window_witness :
    (alookup (update trivEnv DEFAULT_CONFIG worldInit 40 0).1.chunks (1, 0)).isSome
        = true ↔
      (1, 0) ∈ windowCoords (worldToChunk DEFAULT_CONFIG 40 0)
        DEFAULT_CONFIG.viewDistance :=
  (c2_window_completeness trivEnv DEFAULT_CONFIG worldInit 40 0 (by
    simp only [worldToChunk, DEFAULT_CONFIG, worldInit, ne_eq, Prod.mk.injEq]
    norm_num)).1 (1, 0)

/-- **C3 (counterexample).** For chunk `(1,0)` at the default `chunkSize = 32`,
the chunk corner lies at `(32, 0)` (distance 32 from the origin), and cell
`(0,0)` of that chunk lies at the very same world position — yet the threshold
the generator computes differs from the claimed
`0.1 − min(d·0.02, 0.15)` at `d = 32`: the source divides the distance by 100
first (`depth = d/100`), giving `0.0936` where the claim demands `−0.05`. -/
theorem c3_counterexample :
    (32 : ℚ) ^ 2 = chunkCornerDistSq 1 0 32 ∧ (0 : ℚ) ≤ 32 ∧
      cellWorldX 1 32 0 = 32 ∧ cellWorldZ 0 32 0 = 0 ∧
      (32 : ℚ) ^ 2 = cellWorldX 1 32 0 ^ 2 + cellWorldZ 0 32 0 ^ 2 ∧
      cellWallThreshold 32 0 0 ≠
        1 / 10 - min ((32 : ℚ) * (2 / 100)) (15 / 100) := by
  norm_num [chunkCornerDistSq, cellWorldX, cellWorldZ, cellWallThreshold]

/-- **C3 (amended).** The wall threshold the generator uses is
`0.1 − min((d/100)·0.02, 0.15)` where `d` is the Euclidean distance of the
*chunk's* world-space corner from the origin; it is the same for all 16 cells of
a chunk, and it is exactly the cutoff that gates wall emission in the cell step. -/
theorem c3_threshold_amended (cfg : WorldConfig) (noise : ℚ → ℚ → ℚ)
    (dist wx wz : ℚ) (acc : List Elem × ℕ) (gx gz gx' gz' : ℕ) :
    cellWallThreshold dist gx gz = 1 / 10 - min (dist / 100 * (2 / 100)) (15 / 100) ∧
      cellWallThreshold dist gx gz = cellWallThreshold dist gx' gz' ∧
      wallCount (cellStep cfg noise dist wx wz acc (gx, gz)).1 =
        wallCount acc.1 +
          (if layoutSignal noise (wx + gx * (cfg.chunkSize / 4))
              (wz + gz * (cfg.chunkSize / 4)) > cellWallThreshold dist gx gz
            then 1 else 0) :=
  ⟨rfl, rfl, cellStep_wallCount cfg noise dist wx wz acc gx gz⟩

/-- **C4 (counterexample).** The claimed recurrence
`seed' = (seed·1103515245 + 12345) mod 2^31` does not hold of the code: at state
`2^30 = 1073741824` the product reaches `≈ 2^60` and binary64 rounding of
`+ 12345` (to `+ 12288`) changes the masked result
(`1073754112 ≠ 1073754169`). -/
theorem c4_counterexample :
    seededRandomStep 1073741824 ≠ (1073741824 * 1103515245 + 12345) % 2 ^ 31 := by
  have i1 : fl 1184890471978106880 = 1184890471978106880 := by
    rw [fl_eval_down (e := 60) (by norm_num) (by norm_num) (by norm_num) (by norm_num)]
    norm_num
  have i2 : fl 1184890471978119225 = 1184890471978119168 := by
    rw [fl_eval_down (e := 60) (by norm_num) (by norm_num) (by norm_num) (by norm_num)]
    norm_num
  rw [seededRandomStep_def,
    show (1073741824 : ℕ) * lcgA = 1184890471978106880 from by norm_num [lcgA],
    i1, show (1184890471978106880 : ℕ) + lcgC = 1184890471978119225 from by
      norm_num [lcgC],
    i2]
  norm_num [lcgM]

/-- **C4 (amended).** The state update is the binary64 evaluation
`toInt32(fl(fl(seed·1103515245) + 12345)) & 0x7fffffff`, which agrees with the
claimed exact recurrence `(seed·1103515245 + 12345) mod 2^31` whenever the exact
sum stays below `2^53`; the state always stays below `2^31`, every returned value
lies in `[0, 1)`, and the whole sequence is determined by the construction seed
and the call count through iteration of the step function. -/
theorem c4_prng_amended :
    (∀ s : ℕ, s * 1103515245 + 12345 < 2 ^ 53 →
        seededRandomStep s = (s * 1103515245 + 12345) % 2 ^ 31) ∧
      (∀ s : ℕ, seededRandomStep s < 2 ^ 31) ∧
      (∀ s : ℕ, 0 ≤ seededRandomVal s ∧ seededRandomVal s < 1) ∧
      (∀ s n : ℕ, seededRandomState s (n + 1) =
        seededRandomStep (seededRandomState s n)) :=
  ⟨fun _ h => seededRandomStep_exact h, seededRandomStep_lt,
    fun s => ⟨seededRandomVal_nonneg s, seededRandomVal_lt_one s⟩, fun _ _ => rfl⟩

/-- Witness for `c4_prng_amended` at concrete states. -/
theorem c4_prng_witness :
    (seededRandomStep 3 = (3 * 1103515245 + 12345) % 2 ^ 31) ∧
      (0 ≤ seededRandomVal 3 ∧ seededRandomVal 3 < 1) ∧
      (3 * 1103515245 + 12345) % 2 ^ 31 = 1163074432 :=
  ⟨c4_prng_amended.1 3 (by norm_num), c4_prng_amended.2.2.1 3, by norm_num⟩

/-- **C5.** If the observer's derived chunk coordinate equals the recorded one,
`update` performs no load and no unload and leaves both the store and the
recorded coordinate untouched. -/
theorem c5_no_thrash (env : GenEnv) (cfg : WorldConfig) (st : WorldState)
    (px pz : ℚ) (h : worldToChunk cfg px pz = st.lastPlayerChunk) :
    update env cfg st px pz = (st, []) := by
  simp only [update]
  rw [if_pos h]

/-- Witness for `c5_no_thrash`: both corners of the spec's example — positions
`(1, 1.6, 1)` and `(31.9, 1.6, 31.9)` inside chunk `(0,0)` at `chunkSize = 32`. -/
theorem c5_witness :
    update trivEnv DEFAULT_CONFIG worldInit 1 1 = (worldInit, []) ∧
      update trivEnv DEFAULT_CONFIG worldInit (319 / 10) (319 / 10) = (worldInit, []) :=
  ⟨c5_no_thrash trivEnv DEFAULT_CONFIG worldInit 1 1 (by
      simp only [worldToChunk, DEFAULT_CONFIG, worldInit, Prod.mk.injEq]
      norm_num),
    c5_no_thrash trivEnv DEFAULT_CONFIG worldInit (319 / 10) (319 / 10) (by
      simp only [worldToChunk, DEFAULT_CONFIG, worldInit, Prod.mk.injEq]
      norm_num)⟩

/-- **C6.** A coordinate already resident and inside the new window is neither
regenerated nor re-inserted by `update`: its stored chunk value is unchanged and
no load call is issued for it. -/
theorem c6_no_duplicate_work (env : GenEnv) (cfg : WorldConfig) (st : WorldState)
    (px pz : ℚ) (c : ℤ × ℤ) (ch : List Elem)
    (hres : alookup st.chunks c = some ch)
    (hin : c ∈ windowCoords (worldToChunk cfg px pz) cfg.viewDistance) :
    alookup (update env cfg st px pz).1.chunks c = some ch ∧
      WEvent.load c ∉ (update env cfg st px pz).2 := by
  by_cases h : worldToChunk cfg px pz = st.lastPlayerChunk
  · simp only [update]
    rw [if_pos h]
    exact ⟨hres, by simp⟩
  · simp only [update]
    rw [if_neg h]
    have hload := loadPass_preserves env cfg
      (L := windowCoords (worldToChunk cfg px pz) cfg.viewDistance)
      hres (List.not_mem_nil _)
    constructor
    · rw [alookup_foldl_unload,
        if_neg fun hmem => (mem_staleKeys_iff.mp hmem).2 hin]
      exact hload.1
    · intro hmem
      rcases List.mem_append.mp hmem with hmem | hmem
      · exact hload.2 hmem
      · rcases List.mem_map.mp hmem with ⟨k, _, hk⟩
        exact WEvent.noConfusion hk

/-- Witness for `c6_no_duplicate_work` at a concrete resident chunk. -/
theorem c6_witness :
    alookup (update trivEnv DEFAULT_CONFIG
        { chunks := [((0, 0), [])], lastPlayerChunk := (5, 5) } 0 0).1.chunks (0, 0)
      = some [] ∧
    WEvent.load (0, 0) ∉ (update trivEnv DEFAULT_CONFIG
        { chunks := [((0, 0), [])], lastPlayerChunk := (5, 5) } 0 0).2 :=
  c6_no_duplicate_work trivEnv DEFAULT_CONFIG
    { chunks := [((0, 0), [])], lastPlayerChunk := (5, 5) } 0 0 (0, 0) []
    rfl (by
      have h : worldToChunk DEFAULT_CONFIG 0 0 = ((0 : ℤ), (0 : ℤ)) := by
        simp only [worldToChunk, DEFAULT_CONFIG, Prod.mk.injEq]
        norm_num
      rw [h]
      decide)

/-- **C7.** The wall threshold is non-increasing in the distance from the world
origin used by the generator — between any two cells, the farther one's threshold
is no higher — and it never drops below `−0.05`. -/
theorem c7_threshold_monotone (d1 d2 : ℚ) (gx gz gx' gz' : ℕ) (h : d1 ≤ d2) :
    cellWallThreshold d2 gx' gz' ≤ cellWallThreshold d1 gx gz ∧
      -(1 / 20) ≤ cellWallThreshold d2 gx' gz' := by
  constructor
  · have hm : min (d1 / 100 * (2 / 100)) (15 / 100) ≤
        min (d2 / 100 * (2 / 100)) (15 / 100) :=
      min_le_min (by linarith) le_rfl
    simp only [cellWallThreshold]
    linarith
  · have hm := min_le_right (d2 / 100 * (2 / 100)) ((15 : ℚ) / 100)
    simp only [cellWallThreshold]
    linarith

/-- Witness for `c7_threshold_monotone` at distances 0 and 100. -/
theorem c7_witness :
    cellWallThreshold 100 1 2 ≤ cellWallThreshold 0 0 0 ∧
      -(1 / 20) ≤ cellWallThreshold 100 1 2 :=
  c7_threshold_monotone 0 100 0 0 1 2 (by norm_num)

/-- **C8.** Every `move` from a registered connection updates that connection's
stored position and rotation; a broadcast is emitted exactly when more than
50 ms have passed since the shared `lastBroadcast` stamp (which is left
untouched otherwise); and along any sequence of moves, consecutive
`player_moved` broadcasts are always more than 50 ms apart. -/
theorem c8_move_throttle :
    (∀ (st : ServerState) (sid : String) (data : PlayerState) (now : ℤ)
        (p : PlayerState), alookup st.players sid = some p →
      alookup (handleMove st sid data now).1.players sid = some data ∧
        ((handleMove st sid data now).2 = true ↔
          st.lastBroadcast + BROADCAST_INTERVAL < now) ∧
        ((handleMove st sid data now).2 = false →
          (handleMove st sid data now).1.lastBroadcast = st.lastBroadcast)) ∧
    (∀ (st : ServerState) (moves : List (String × PlayerState × ℤ)),
      List.Chain (fun a b => a + BROADCAST_INTERVAL < b) st.lastBroadcast
        (runMoves st moves).2) := by
  constructor
  · intro st sid data now p hp
    by_cases ht : now - st.lastBroadcast > BROADCAST_INTERVAL
    · rw [show handleMove st sid data now =
          ({ players := st.players.map fun kv => if kv.1 = sid then (kv.1, data) else kv,
             lastBroadcast := now }, true) from by
        simp only [handleMove, hp]
        rw [if_pos ht]]
      refine ⟨alookup_map_update hp, ?_, ?_⟩
      · constructor
        · intro _
          simp only [BROADCAST_INTERVAL] at ht ⊢
          omega
        · intro _
          rfl
      · intro hfalse
        simp at hfalse
    · rw [show handleMove st sid data now =
          ({ players := st.players.map fun kv => if kv.1 = sid then (kv.1, data) else kv,
             lastBroadcast := st.lastBroadcast }, false) from by
        simp only [handleMove, hp]
        rw [if_neg ht]]
      refine ⟨alookup_map_update hp, ?_, fun _ => rfl⟩
      constructor
      · intro hfalse
        simp at hfalse
      · intro hlt
        exfalso
        simp only [BROADCAST_INTERVAL] at ht hlt
        omega
  · exact runMoves_chain

/-- Witness for `c8_move_throttle` at a concrete registered connection. -/
theorem c8_witness :
    (alookup (handleMove { players := [("a", ⟨0, 8 / 5, 0, 0⟩)], lastBroadcast := 0 }
          "a" ⟨1, 8 / 5, 2, 0⟩ 100).1.players "a" = some ⟨1, 8 / 5, 2, 0⟩ ∧
        ((handleMove { players := [("a", ⟨0, 8 / 5, 0, 0⟩)], lastBroadcast := 0 }
            "a" ⟨1, 8 / 5, 2, 0⟩ 100).2 = true ↔
          (0 : ℤ) + BROADCAST_INTERVAL < 100) ∧
        ((handleMove { players := [("a", ⟨0, 8 / 5, 0, 0⟩)], lastBroadcast := 0 }
            "a" ⟨1, 8 / 5, 2, 0⟩ 100).2 = false →
          (handleMove { players := [("a", ⟨0, 8 / 5, 0, 0⟩)], lastBroadcast := 0 }
            "a" ⟨1, 8 / 5, 2, 0⟩ 100).1.lastBroadcast = 0)) ∧
      List.Chain (fun a b => a + BROADCAST_INTERVAL < b) 0
        (runMoves { players := [("a", ⟨0, 8 / 5, 0, 0⟩)], lastBroadcast := 0 }
          [("a", ⟨1, 8 / 5, 2, 0⟩, 30), ("a", ⟨2, 8 / 5, 3, 0⟩, 60)]).2 :=
  ⟨c8_move_throttle.1 { players := [("a", ⟨0, 8 / 5, 0, 0⟩)], lastBroadcast := 0 }
      "a" ⟨1, 8 / 5, 2, 0⟩ 100 ⟨0, 8 / 5, 0, 0⟩ rfl,
    c8_move_throttle.2 { players := [("a", ⟨0, 8 / 5, 0, 0⟩)], lastBroadcast := 0 }
      [("a", ⟨1, 8 / 5, 2, 0⟩, 30), ("a", ⟨2, 8 / 5, 3, 0⟩, 60)]⟩

/-- **C9.** Unloading a non-resident coordinate is a no-op (no error, store
unchanged), and a second unload of the same coordinate leaves the store exactly
as after the first. -/
theorem c9_idempotent_unload :
    (∀ (m : List ((ℤ × ℤ) × List Elem)) (c : ℤ × ℤ),
        alookup m c = none → unloadChunk m c = m) ∧
      (∀ (m : List ((ℤ × ℤ) × List Elem)) (c : ℤ × ℤ),
        unloadChunk (unloadChunk m c) c = unloadChunk m c) :=
  ⟨fun _ _ h => unloadChunk_of_absent h, unloadChunk_idem⟩

/-- Witness for `c9_idempotent_unload` on a concrete store. -/
theorem c9_witness :
    unloadChunk [((1, 2), ([] : List Elem))] (0, 0) = [((1, 2), [])] ∧
      unloadChunk (unloadChunk [((1, 2), ([] : List Elem))] (0, 0)) (0, 0) =
        unloadChunk [((1, 2), ([] : List Elem))] (0, 0) :=
  ⟨c9_idempotent_unload.1 [((1, 2), [])] (0, 0) rfl,
    c9_idempotent_unload.2 [((1, 2), [])] (0, 0)⟩

/-- **C10.** The coordinate hash collapses the lines `{(x+t, z−31t)}`: stepping
`x` by one while stepping `z` down by 31 (and generally by any multiple) leaves
the 31-bit chunk seed unchanged, because the pre-mask accumulator is congruent
to `961·seed + 31·x + z`. -/
theorem c10_hash_collision_lines (x z seed t : ℤ) :
    hashCoords (x + 1) (z - 31) seed = hashCoords x z seed ∧
      hashCoords (x + t) (z - 31 * t) seed = hashCoords x z seed ∧
      hashCoords x z seed = (961 * seed + 31 * x + z) % 2 ^ 31 := by
  refine ⟨?_, ?_, hashCoords_eq x z seed⟩
  · rw [hashCoords_eq, hashCoords_eq]
    ring_nf
  · rw [hashCoords_eq, hashCoords_eq]
    ring_nf

end Backrooms
